import Mathlib

/-!
Verification of the tunnel subcommand core of `cloudflared`
(`cmd/cloudflared/tunnel/subcommands.go`): the sort engine used by
`listCommand` and `tunnelInfo`, the connection formatter
`fmtConnections`, the validators `validateName` / `validateHostname`,
the route builders `dnsRouteFromArg` / `lbRouteFromArg`, the filter
construction of `listCommand`, and `writeTunnelCredentials`.

Go's `sort.Slice(slice, less)` is modelled at two levels.  `sortLess`
is a deterministic comparison sort (insertion sort) over a boolean
`less` comparator, used for properties that are tie-free or independent
of tie order (its tie order differs from the code's).  Tie-sensitive
behavior is modelled exactly by `goSortSliceSmall`, the code path the
contemporary Go toolchain takes for slices of at most 12 elements
(gap-6 shell pass + stable insertion sort).  The `sortLess` model is
instrumented with a flag recording whether the comparator was invoked at
all, because `listCommand` and `tunnelInfo` set their `invalidSortField`
flag inside the comparator closure: the flag can only become true if the
sort performs at least one comparison (which matches `sort.Slice`: zero
comparisons below two elements, at least one otherwise).
-/

/-- Insert `x` into `l`, placing it before the first element `y` with
`less x y = true`.  One insertion step of the insertion-sort model of
`sort.Slice`. -/
def insertLess (less : α → α → Bool) (x : α) : List α → List α
  | [] => [x]
  | y :: ys => if less x y then x :: y :: ys else y :: insertLess less x ys

/-- Deterministic comparison sort (insertion sort) over a boolean `less`
comparator; models `sort.Slice(slice, less)` up to tie order (its tie
order differs from the code's stable small-slice insertion sort, so it
is used only for tie-free or order-independent properties; see
`goSortSliceSmall` for the exact tie behavior). -/
def sortLess (less : α → α → Bool) : List α → List α
  | [] => []
  | x :: xs => insertLess less x (sortLess less xs)

/-- `insertLess` instrumented with a flag that records whether the
comparator was invoked at least once during the insertion. -/
def insertLessF (less : α → α → Bool) (x : α) : List α → List α × Bool
  | [] => ([x], false)
  | y :: ys =>
    if less x y then (x :: y :: ys, true)
    else
      let r := insertLessF less x ys
      (y :: r.1, true)

/-- `sortLess` instrumented with a flag that records whether the
comparator was invoked at least once during the whole sort. -/
def sortLessF (less : α → α → Bool) : List α → List α × Bool
  | [] => ([], false)
  | x :: xs =>
    let r := sortLessF less xs
    let r2 := insertLessF less x r.1
    (r2.1, r.2 || r2.2)

theorem insertLessF_fst (less : α → α → Bool) (x : α) (l : List α) :
    (insertLessF less x l).1 = insertLess less x l := by
  induction l with
  | nil => rfl
  | cons y ys ih =>
    simp only [insertLessF, insertLess]
    split <;> simp [ih]

theorem insertLessF_snd (less : α → α → Bool) (x : α) (l : List α) :
    (insertLessF less x l).2 = !l.isEmpty := by
  cases l with
  | nil => rfl
  | cons y ys =>
    simp only [insertLessF, List.isEmpty_cons]
    split <;> rfl

theorem sortLessF_fst (less : α → α → Bool) (l : List α) :
    (sortLessF less l).1 = sortLess less l := by
  induction l with
  | nil => rfl
  | cons x xs ih => simp [sortLessF, sortLess, ih, insertLessF_fst]

theorem insertLess_length (less : α → α → Bool) (x : α) (l : List α) :
    (insertLess less x l).length = l.length + 1 := by
  induction l with
  | nil => rfl
  | cons y ys ih =>
    simp only [insertLess]
    split <;> simp [ih]

theorem sortLess_length (less : α → α → Bool) (l : List α) :
    (sortLess less l).length = l.length := by
  induction l with
  | nil => rfl
  | cons x xs ih => simp [sortLess, insertLess_length, ih]

theorem sortLessF_snd (less : α → α → Bool) (l : List α) :
    (sortLessF less l).2 = decide (2 ≤ l.length) := by
  induction l with
  | nil => rfl
  | cons x xs ih =>
    simp only [sortLessF, ih, insertLessF_snd, sortLessF_fst]
    cases xs with
    | nil => rfl
    | cons y ys =>
      have h : (sortLess less (y :: ys)).isEmpty = false := by
        have hl := sortLess_length less (y :: ys)
        cases he : sortLess less (y :: ys) with
        | nil => rw [he] at hl; simp at hl
        | cons a as => rfl
      simp [h, List.length_cons]

theorem insertLess_perm (less : α → α → Bool) (x : α) (l : List α) :
    (insertLess less x l).Perm (x :: l) := by
  induction l with
  | nil => rfl
  | cons y ys ih =>
    simp only [insertLess]
    split
    · rfl
    · exact (ih.cons y).trans (List.Perm.swap x y ys)

theorem sortLess_perm (less : α → α → Bool) (l : List α) :
    (sortLess less l).Perm l := by
  induction l with
  | nil => rfl
  | cons x xs ih => exact (insertLess_perm less x (sortLess less xs)).trans (ih.cons x)

theorem mem_sortLess (less : α → α → Bool) (l : List α) (a : α) :
    a ∈ sortLess less l ↔ a ∈ l :=
  (sortLess_perm less l).mem_iff

theorem insertLess_congr (f g : α → α → Bool) (h : ∀ a b, f a b = g a b) (x : α)
    (l : List α) : insertLess f x l = insertLess g x l := by
  induction l with
  | nil => rfl
  | cons y ys ih => simp only [insertLess, h, ih]

theorem sortLess_congr (f g : α → α → Bool) (h : ∀ a b, f a b = g a b) (l : List α) :
    sortLess f l = sortLess g l := by
  induction l with
  | nil => rfl
  | cons x xs ih => simp only [sortLess, ih, insertLess_congr f g h]

theorem pairwise_of_forall {R : α → α → Prop} (h : ∀ a b, R a b) (l : List α) :
    l.Pairwise R := by
  induction l with
  | nil => exact .nil
  | cons x xs ih => exact .cons (fun y _ => h x y) ih

/-- Inserting `x` into a list sorted in the weak sense (no strict
inversion) keeps it sorted, provided `less` behaves asymmetrically
between `x` and the existing elements and transitively through `x`. -/
theorem insertLess_pairwise (less : α → α → Bool) (x : α) (ys : List α)
    (hys : ys.Pairwise fun a b => less b a = false)
    (hax : ∀ y ∈ ys, less x y = true → less y x = true → False)
    (htr : ∀ z ∈ ys, ∀ y ∈ ys, less z x = true → less x y = true → less z y = true) :
    (insertLess less x ys).Pairwise fun a b => less b a = false := by
  induction ys with
  | nil => simp [insertLess]
  | cons y ys ih =>
    rw [List.pairwise_cons] at hys
    simp only [insertLess]
    split
    · rename_i hxy
      refine List.Pairwise.cons ?_ (List.Pairwise.cons hys.1 hys.2)
      intro b hb
      rcases List.mem_cons.1 hb with hb | hb
      · subst hb
        cases hbx : less b x with
        | false => rfl
        | true => exact absurd (hax b (List.mem_cons_self b ys) hxy hbx) (fun h => h)
      · cases hbx : less b x with
        | false => rfl
        | true =>
          have hby := htr b (List.mem_cons_of_mem y hb) y (List.mem_cons_self y ys) hbx hxy
          rw [hys.1 b hb] at hby
          exact absurd hby (by simp)
    · rename_i hxy
      refine List.Pairwise.cons ?_ ?_
      · intro w hw
        rcases List.mem_cons.1 ((insertLess_perm less x ys).mem_iff.1 hw) with hw' | hw'
        · subst hw'
          simpa using hxy
        · exact hys.1 w hw'
      · exact ih hys.2 (fun a ha => hax a (List.mem_cons_of_mem y ha))
          (fun z hz b hb => htr z (List.mem_cons_of_mem y hz) b (List.mem_cons_of_mem y hb))

/-- The insertion-sort model produces a list with no strict inversion,
for any comparator that is positionally asymmetric on the input and
transitive over its elements. -/
theorem sortLess_pairwise (less : α → α → Bool) (l : List α)
    (hax : l.Pairwise fun a b => ¬(less a b = true ∧ less b a = true))
    (htr : ∀ a ∈ l, ∀ b ∈ l, ∀ c ∈ l, less a b = true → less b c = true → less a c = true) :
    (sortLess less l).Pairwise fun a b => less b a = false := by
  induction l with
  | nil => exact .nil
  | cons x xs ih =>
    rw [List.pairwise_cons] at hax
    refine insertLess_pairwise less x (sortLess less xs) ?_ ?_ ?_
    · exact ih hax.2 (fun a ha b hb c hc =>
        htr a (List.mem_cons_of_mem x ha) b (List.mem_cons_of_mem x hb)
          c (List.mem_cons_of_mem x hc))
    · intro y hy h1 h2
      exact hax.1 y ((mem_sortLess less xs y).1 hy) ⟨h1, h2⟩
    · intro z hz y hy h1 h2
      exact htr z (List.mem_cons_of_mem x ((mem_sortLess less xs z).1 hz))
        x (List.mem_cons_self x xs)
        y (List.mem_cons_of_mem x ((mem_sortLess less xs y).1 hy)) h1 h2

/-- Two permuted lists that are both sorted under an asymmetric (hence
irreflexive) strict relation are equal. -/
theorem pairwise_perm_eq_of_asymm {r : α → α → Prop}
    (hasymm : ∀ a b, r a b → r b a → False) {l₁ l₂ : List α}
    (hp : l₁.Perm l₂) (h₁ : l₁.Pairwise r) (h₂ : l₂.Pairwise r) : l₁ = l₂ := by
  haveI : IsAntisymm α r := ⟨fun a b hab hba => (hasymm a b hab hba).elim⟩
  exact List.eq_of_perm_of_sorted hp h₁ h₂

/-- Sorting with a strict total comparator does not depend on the input
order: any two permuted duplicate-free inputs sort to the same list. -/
theorem sortLess_eq_of_perm {less : α → α → Bool}
    (hasymm : ∀ a b, less a b = true → less b a = true → False)
    (htrans : ∀ a b c, less a b = true → less b c = true → less a c = true)
    (htotal : ∀ a b : α, a ≠ b → less a b = true ∨ less b a = true)
    {l₁ l₂ : List α} (hp : l₁.Perm l₂) (hnd : l₁.Nodup) :
    sortLess less l₁ = sortLess less l₂ := by
  have hnd₂ : l₂.Nodup := hp.nodup hnd
  have hsort : ∀ (l : List α), l.Nodup →
      (sortLess less l).Pairwise fun a b => less a b = true := by
    intro l hl
    have hweak : (sortLess less l).Pairwise fun a b => less b a = false :=
      sortLess_pairwise less l
        (pairwise_of_forall (fun a b h => hasymm a b h.1 h.2) l)
        (fun a _ b _ c _ h1 h2 => htrans a b c h1 h2)
    have hne : (sortLess less l).Pairwise fun a b => a ≠ b :=
      ((sortLess_perm less l).pairwise_iff (fun h => h.symm)).2 hl
    refine (hne.and hweak).imp ?_
    intro a b hab
    rcases htotal a b hab.1 with h | h
    · exact h
    · rw [hab.2] at h
      exact absurd h (by simp)
  refine pairwise_perm_eq_of_asymm (r := fun a b => less a b = true)
    (fun a b h1 h2 => hasymm a b h1 h2) ?_ (hsort l₁ hnd) (hsort l₂ hnd₂)
  exact (sortLess_perm less l₁).trans (hp.trans (sortLess_perm less l₂).symm)

/-! ## String comparison

Go compares strings byte-wise lexicographically; on UTF-8 this agrees
with code-point lexicographic order.  The default decidability of `<`
on `String` does not reduce well in the kernel, so the model uses an
explicit lexicographic comparator over the character list. -/

/-- Strict order on characters (by code point), as a boolean. -/
def charLt (a b : Char) : Bool := decide (a < b)

/-- Lexicographic strict order on character lists. -/
def charListLt : List Char → List Char → Bool
  | [], [] => false
  | [], _ :: _ => true
  | _ :: _, [] => false
  | a :: as, b :: bs => charLt a b || (a == b && charListLt as bs)

/-- Lexicographic strict order on strings; models Go string `<`. -/
def strLt (a b : String) : Bool := charListLt a.data b.data

theorem charListLt_asymm : ∀ (l1 l2 : List Char),
    charListLt l1 l2 = true → charListLt l2 l1 = true → False := by
  intro l1
  induction l1 with
  | nil =>
    intro l2 h1 h2
    cases l2 with
    | nil => exact absurd h1 (by simp [charListLt])
    | cons b bs => exact absurd h2 (by simp [charListLt])
  | cons a as ih =>
    intro l2 h1 h2
    cases l2 with
    | nil => exact absurd h1 (by simp [charListLt])
    | cons b bs =>
      simp only [charListLt, charLt, Bool.or_eq_true, Bool.and_eq_true, beq_iff_eq,
        decide_eq_true_eq] at h1 h2
      rcases h1 with h1 | ⟨hab, h1⟩
      · rcases h2 with h2 | ⟨hba, _⟩
        · exact lt_asymm h1 h2
        · subst hba
          exact lt_irrefl _ h1
      · subst hab
        rcases h2 with h2 | ⟨_, h2⟩
        · exact lt_irrefl _ h2
        · exact ih bs h1 h2

theorem charListLt_trans : ∀ (l1 l2 l3 : List Char),
    charListLt l1 l2 = true → charListLt l2 l3 = true → charListLt l1 l3 = true := by
  intro l1
  induction l1 with
  | nil =>
    intro l2 l3 h1 h2
    cases l2 with
    | nil => exact absurd h1 (by simp [charListLt])
    | cons b bs =>
      cases l3 with
      | nil => exact absurd h2 (by simp [charListLt])
      | cons c cs => simp [charListLt]
  | cons a as ih =>
    intro l2 l3 h1 h2
    cases l2 with
    | nil => exact absurd h1 (by simp [charListLt])
    | cons b bs =>
      cases l3 with
      | nil => exact absurd h2 (by simp [charListLt])
      | cons c cs =>
        simp only [charListLt, charLt, Bool.or_eq_true, Bool.and_eq_true, beq_iff_eq,
          decide_eq_true_eq] at h1 h2 ⊢
        rcases h1 with h1 | ⟨hab, h1⟩
        · rcases h2 with h2 | ⟨hbc, _⟩
          · exact Or.inl (lt_trans h1 h2)
          · subst hbc
            exact Or.inl h1
        · subst hab
          rcases h2 with h2 | ⟨hbc, h2⟩
          · exact Or.inl h2
          · subst hbc
            exact Or.inr ⟨rfl, ih bs cs h1 h2⟩

theorem charListLt_total : ∀ (l1 l2 : List Char), l1 ≠ l2 →
    charListLt l1 l2 = true ∨ charListLt l2 l1 = true := by
  intro l1
  induction l1 with
  | nil =>
    intro l2 hne
    cases l2 with
    | nil => exact absurd rfl hne
    | cons b bs => exact Or.inl (by simp [charListLt])
  | cons a as ih =>
    intro l2 hne
    cases l2 with
    | nil => exact Or.inr (by simp [charListLt])
    | cons b bs =>
      rcases lt_trichotomy a b with h | h | h
      · exact Or.inl (by simp [charListLt, charLt, h])
      · subst h
        have hne2 : as ≠ bs := fun he => hne (by rw [he])
        rcases ih bs hne2 with h | h
        · exact Or.inl (by simp [charListLt, charLt, h])
        · exact Or.inr (by simp [charListLt, charLt, h])
      · exact Or.inr (by simp [charListLt, charLt, h])

theorem charListLt_irrefl : ∀ (l : List Char), charListLt l l = false := by
  intro l
  induction l with
  | nil => rfl
  | cons a as ih => simp [charListLt, charLt, ih]

theorem strLt_asymm (a b : String) (h1 : strLt a b = true) (h2 : strLt b a = true) :
    False :=
  charListLt_asymm a.data b.data h1 h2

theorem strLt_trans (a b c : String) (h1 : strLt a b = true) (h2 : strLt b c = true) :
    strLt a c = true :=
  charListLt_trans a.data b.data c.data h1 h2

theorem strLt_total (a b : String) (h : a ≠ b) :
    strLt a b = true ∨ strLt b a = true :=
  charListLt_total a.data b.data (fun he => h (String.ext he))

theorem strLt_irrefl (a : String) : strLt a a = false :=
  charListLt_irrefl a.data

/-! ## Data model

`tunnelstore.Tunnel`, `tunnelstore.Client` (connector) and
`tunnelstore.Connection` live outside the given source file; their
fields are modelled from the spec (§3) and from how
`subcommands.go` reads them (`ID.String()`, `CreatedAt.Unix()`,
`DeletedAt.Unix()`, `RunAt.Unix()`, `len(Connections)`, `ColoName`,
`IsPendingReconnect`, `OriginIP`, `Version`, `Arch`).  A UUID is kept in
its string form; timestamps are kept as their Unix integer. -/

/-- Modelled from the spec: one edge connection slot of a connector
(`tunnelstore.Connection`). -/
structure Connection where
  ColoName : String
  OriginIP : String
  IsPendingReconnect : Bool
deriving DecidableEq

/-- Modelled from the spec: a tunnel record (`tunnelstore.Tunnel`). -/
structure Tunnel where
  ID : String
  Name : String
  CreatedAt : Int
  DeletedAt : Int
  Connections : List Connection
deriving DecidableEq

/-- Modelled from the spec: a connector record (`tunnelstore.Client`). -/
structure Client where
  ID : String
  RunAt : Int
  Version : String
  Arch : String
  Connections : List Connection
deriving DecidableEq

/-- `allSortByOptions` constant of `subcommands.go`. -/
def allSortByOptions : String := "name, id, createdAt, deletedAt, numConnections"

/-- `connsSortByOptions` constant of `subcommands.go`. -/
def connsSortByOptions : String := "id, startedAt, numConnections, version"

/-- The key dispatch of the comparator closure in `listCommand`
(`switch sortBy` inside `sort.Slice`); a Go `switch` on a string is a
sequential equality test. -/
def tunnelCmp (sortBy : String) (ti tj : Tunnel) : Bool :=
  if sortBy = "name" then strLt ti.Name tj.Name
  else if sortBy = "id" then strLt ti.ID tj.ID
  else if sortBy = "createdAt" then decide (ti.CreatedAt < tj.CreatedAt)
  else if sortBy = "deletedAt" then decide (ti.DeletedAt < tj.DeletedAt)
  else if sortBy = "numConnections" then decide (ti.Connections.length < tj.Connections.length)
  else strLt ti.Name tj.Name

/-- Whether `sortBy` names one of the supported tunnel sort keys (the
`default` branch of the `switch` in `listCommand` is not taken). -/
def tunnelSortKeyValid (sortBy : String) : Bool :=
  decide (sortBy = "name") || decide (sortBy = "id") || decide (sortBy = "createdAt")
    || decide (sortBy = "deletedAt") || decide (sortBy = "numConnections")

/-- The full comparator closure of `listCommand`: the key comparator,
then `invert-sort` negates the final result. -/
def tunnelLess (sortBy : String) (invert : Bool) (ti tj : Tunnel) : Bool :=
  let cmp := tunnelCmp sortBy ti tj
  if invert then !cmp else cmp

/-- The sort phase of `listCommand` (lines 262-290): sorts the fetched
tunnels with `sort.Slice` and returns the resulting `invalidSortField`
flag, which is set inside the comparator closure whenever the `default`
branch runs. -/
def listCommandSort (sortBy : String) (invert : Bool) (tunnels : List Tunnel) :
    List Tunnel × Bool :=
  let r := sortLessF (tunnelLess sortBy invert) tunnels
  (r.1, !tunnelSortKeyValid sortBy && r.2)

/-- The warning `listCommand` logs after sorting, exactly when
`invalidSortField` is true. -/
def listSortWarning (sortBy : String) (invalidSortField : Bool) : Option String :=
  if invalidSortField then
    some (sortBy ++ " is not a valid sort field. Valid sort fields are "
      ++ allSortByOptions ++ ". Defaulting to 'name'.")
  else none

/-- The key dispatch of the comparator closure in `tunnelInfo`
(`switch sortBy` inside `sort.Slice` over the active clients). -/
def clientCmp (sortBy : String) (ci cj : Client) : Bool :=
  if sortBy = "id" then strLt ci.ID cj.ID
  else if sortBy = "createdAt" then decide (ci.RunAt < cj.RunAt)
  else if sortBy = "numConnections" then decide (ci.Connections.length < cj.Connections.length)
  else if sortBy = "version" then strLt ci.Version cj.Version
  else decide (ci.RunAt < cj.RunAt)

/-- Whether `sortBy` names one of the supported connector sort keys. -/
def clientSortKeyValid (sortBy : String) : Bool :=
  decide (sortBy = "id") || decide (sortBy = "createdAt")
    || decide (sortBy = "numConnections") || decide (sortBy = "version")

/-- The full comparator closure of `tunnelInfo`. -/
def clientLess (sortBy : String) (invert : Bool) (ci cj : Client) : Bool :=
  let cmp := clientCmp sortBy ci cj
  if invert then !cmp else cmp

/-- The sort phase of `tunnelInfo` (lines 396-421). -/
def tunnelInfoSort (sortBy : String) (invert : Bool) (clients : List Client) :
    List Client × Bool :=
  let r := sortLessF (clientLess sortBy invert) clients
  (r.1, !clientSortKeyValid sortBy && r.2)

/-- The warning `tunnelInfo` logs after sorting, exactly when
`invalidSortField` is true. -/
def infoSortWarning (sortBy : String) (invalidSortField : Bool) : Option String :=
  if invalidSortField then
    some (sortBy ++ " is not a valid sort field. Valid sort fields are "
      ++ connsSortByOptions ++ ". Defaulting to 'name'.")
  else none

theorem tunnelCmp_asymm (sortBy : String) (a b : Tunnel)
    (h1 : tunnelCmp sortBy a b = true) (h2 : tunnelCmp sortBy b a = true) : False := by
  unfold tunnelCmp at h1 h2
  split_ifs at h1 h2 <;> first
    | (exact strLt_asymm _ _ h1 h2)
    | (rw [decide_eq_true_eq] at h1 h2; exact lt_asymm h1 h2)

theorem tunnelCmp_trans (sortBy : String) (a b c : Tunnel)
    (h1 : tunnelCmp sortBy a b = true) (h2 : tunnelCmp sortBy b c = true) :
    tunnelCmp sortBy a c = true := by
  unfold tunnelCmp at h1 h2 ⊢
  split_ifs at h1 h2 ⊢ <;> first
    | (exact strLt_trans _ _ _ h1 h2)
    | (rw [decide_eq_true_eq] at h1 h2 ⊢; exact lt_trans h1 h2)

theorem tunnelCmp_irrefl (sortBy : String) (a : Tunnel) :
    tunnelCmp sortBy a a = false := by
  unfold tunnelCmp
  split_ifs <;> first
    | (exact strLt_irrefl _)
    | simp

theorem tunnelCmp_default (sortBy : String) (h : tunnelSortKeyValid sortBy = false)
    (a b : Tunnel) : tunnelCmp sortBy a b = strLt a.Name b.Name := by
  simp only [tunnelSortKeyValid, Bool.or_eq_false_iff, decide_eq_false_iff_not] at h
  unfold tunnelCmp
  split_ifs with h1 h2 h3 h4 h5 <;> first
    | rfl
    | (exact absurd h1 h.1.1.1.1)
    | (exact absurd h2 h.1.1.1.2)
    | (exact absurd h3 h.1.1.2)
    | (exact absurd h4 h.1.2)
    | (exact absurd h5 h.2)

theorem clientCmp_default (sortBy : String) (h : clientSortKeyValid sortBy = false)
    (a b : Client) : clientCmp sortBy a b = decide (a.RunAt < b.RunAt) := by
  simp only [clientSortKeyValid, Bool.or_eq_false_iff, decide_eq_false_iff_not] at h
  unfold clientCmp
  split_ifs with h1 h2 h3 h4 <;> first
    | rfl
    | (exact absurd h1 h.1.1.1)
    | (exact absurd h2 h.1.1.2)
    | (exact absurd h3 h.1.2)
    | (exact absurd h4 h.2)

theorem tunnelLess_false (sortBy : String) (a b : Tunnel) :
    tunnelLess sortBy false a b = tunnelCmp sortBy a b := rfl

theorem tunnelLess_true (sortBy : String) (a b : Tunnel) :
    tunnelLess sortBy true a b = !(tunnelCmp sortBy a b) := rfl

theorem listCommandSort_fst (sortBy : String) (invert : Bool) (l : List Tunnel) :
    (listCommandSort sortBy invert l).1 = sortLess (tunnelLess sortBy invert) l :=
  sortLessF_fst _ l

theorem listCommandSort_snd (sortBy : String) (invert : Bool) (l : List Tunnel) :
    (listCommandSort sortBy invert l).2
      = (!tunnelSortKeyValid sortBy && decide (2 ≤ l.length)) := by
  show (!tunnelSortKeyValid sortBy && (sortLessF (tunnelLess sortBy invert) l).2) = _
  rw [sortLessF_snd]

theorem tunnelInfoSort_fst (sortBy : String) (invert : Bool) (l : List Client) :
    (tunnelInfoSort sortBy invert l).1 = sortLess (clientLess sortBy invert) l :=
  sortLessF_fst _ l

theorem tunnelInfoSort_snd (sortBy : String) (invert : Bool) (l : List Client) :
    (tunnelInfoSort sortBy invert l).2
      = (!clientSortKeyValid sortBy && decide (2 ≤ l.length)) := by
  show (!clientSortKeyValid sortBy && (sortLessF (clientLess sortBy invert) l).2) = _
  rw [sortLessF_snd]

/-- C1 (amended): if the selected key has pairwise distinct values on the
list (no ties), then sorting with `invert=false` and re-sorting the
result with `invert=true` yields the exact reverse of the first
ordering; and `invert` negates only the final boolean comparison
outcome, never which key comparator is selected. -/
theorem listCommandSort_invert_reverses (sortBy : String) (l : List Tunnel)
    (H : l.Pairwise fun a b =>
      tunnelCmp sortBy a b = true ∨ tunnelCmp sortBy b a = true) :
    (listCommandSort sortBy true (listCommandSort sortBy false l).1).1
      = ((listCommandSort sortBy false l).1).reverse
    ∧ ∀ a b, tunnelLess sortBy true a b = !(tunnelLess sortBy false a b) := by
  refine ⟨?_, fun a b => rfl⟩
  rw [listCommandSort_fst, listCommandSort_fst]
  set S1 := sortLess (tunnelLess sortBy false) l with hS1
  have hperm1 : S1.Perm l := sortLess_perm _ l
  have hsymmR : ∀ {a b : Tunnel},
      (tunnelCmp sortBy a b = true ∨ tunnelCmp sortBy b a = true) →
      (tunnelCmp sortBy b a = true ∨ tunnelCmp sortBy a b = true) :=
    fun h => h.symm
  have H1 : S1.Pairwise fun a b =>
      tunnelCmp sortBy a b = true ∨ tunnelCmp sortBy b a = true :=
    (hperm1.pairwise_iff hsymmR).2 H
  have hax_cmp : l.Pairwise fun a b =>
      ¬(tunnelLess sortBy false a b = true ∧ tunnelLess sortBy false b a = true) :=
    pairwise_of_forall (fun a b h => tunnelCmp_asymm sortBy a b h.1 h.2) l
  have hs1 : S1.Pairwise fun a b => tunnelLess sortBy false b a = false :=
    sortLess_pairwise _ l hax_cmp
      (fun a _ b _ c _ h1 h2 => tunnelCmp_trans sortBy a b c h1 h2)
  have hs1' : S1.Pairwise fun a b => tunnelCmp sortBy a b = true := by
    refine (H1.and hs1).imp ?_
    intro a b hab
    rcases hab.1 with h | h
    · exact h
    · rw [tunnelLess_false] at hab
      rw [hab.2] at h
      exact absurd h (by simp)
  have hax' : S1.Pairwise fun a b =>
      ¬(tunnelLess sortBy true a b = true ∧ tunnelLess sortBy true b a = true) := by
    refine H1.imp ?_
    intro a b hab h
    have h1 : tunnelCmp sortBy a b = false := by
      have := h.1
      rw [tunnelLess_true, Bool.not_eq_true'] at this
      exact this
    have h2 : tunnelCmp sortBy b a = false := by
      have := h.2
      rw [tunnelLess_true, Bool.not_eq_true'] at this
      exact this
    rcases hab with hc | hc
    · rw [h1] at hc; exact absurd hc (by simp)
    · rw [h2] at hc; exact absurd hc (by simp)
  have Hf : ∀ a ∈ l, ∀ b ∈ l, a ≠ b →
      (tunnelCmp sortBy a b = true ∨ tunnelCmp sortBy b a = true) :=
    fun a ha b hb hab => List.Pairwise.forall (fun x y h => h.symm) H ha hb hab
  have htr' : ∀ a ∈ S1, ∀ b ∈ S1, ∀ c ∈ S1,
      tunnelLess sortBy true a b = true → tunnelLess sortBy true b c = true →
      tunnelLess sortBy true a c = true := by
    intro a ha b hb c hc h1 h2
    rw [tunnelLess_true, Bool.not_eq_true'] at h1 h2 ⊢
    by_cases hac : a = c
    · subst hac
      exact tunnelCmp_irrefl sortBy a
    by_cases hab : a = b
    · subst hab
      exact h2
    by_cases hbc : b = c
    · subst hbc
      exact h1
    have hba : tunnelCmp sortBy b a = true := by
      rcases Hf a (hperm1.mem_iff.1 ha) b (hperm1.mem_iff.1 hb) hab with h | h
      · rw [h1] at h; exact absurd h (by simp)
      · exact h
    have hcb : tunnelCmp sortBy c b = true := by
      rcases Hf b (hperm1.mem_iff.1 hb) c (hperm1.mem_iff.1 hc) hbc with h | h
      · rw [h2] at h; exact absurd h (by simp)
      · exact h
    cases hcmp : tunnelCmp sortBy a c with
    | false => rfl
    | true =>
      have : tunnelCmp sortBy a b = true := tunnelCmp_trans sortBy a c b hcmp hcb
      rw [h1] at this
      exact absurd this (by simp)
  have hs2 : (sortLess (tunnelLess sortBy true) S1).Pairwise
      fun a b => tunnelLess sortBy true b a = false :=
    sortLess_pairwise _ S1 hax' htr'
  have hs2' : (sortLess (tunnelLess sortBy true) S1).Pairwise
      fun a b => tunnelCmp sortBy b a = true := by
    refine hs2.imp ?_
    intro a b h
    rw [tunnelLess_true, Bool.not_eq_false'] at h
    exact h
  have hrev : (S1.reverse).Pairwise fun a b => tunnelCmp sortBy b a = true :=
    List.pairwise_reverse.2 hs1'
  have hperm : (sortLess (tunnelLess sortBy true) S1).Perm S1.reverse :=
    (sortLess_perm _ S1).trans (S1.reverse_perm).symm
  exact pairwise_perm_eq_of_asymm
    (fun a b h1 h2 => tunnelCmp_asymm sortBy b a h1 h2) hperm hs2' hrev

/-- A tunnel with name `"x"`. -/
def cexTunnelA : Tunnel := { ID := "a-id", Name := "x", CreatedAt := 0, DeletedAt := 0, Connections := [] }

/-- A tunnel with name `"y"`. -/
def cexTunnelC : Tunnel := { ID := "c-id", Name := "y", CreatedAt := 0, DeletedAt := 0, Connections := [] }

/-!
Tie behavior of the real `sort.Slice`.  `sortLess` above is a
deterministic stand-in adequate for tie-free and order-independent
properties, but its tie order differs from the code's, so tie-sensitive
behavior is modelled separately and exactly.  The Go toolchains
contemporary with this source (pre-1.19) compile `sort.Slice` to
`quickSort_func`, which for slices of 2 to 12 elements runs a single
shell-sort pass with gap 6 — `for i := a + 6; i < b; i++`, swapping
positions `i` and `i-6` when `data.Less(i, i-6)` — followed by a stable
left-to-right insertion sort — `for i := a + 1; i < b; i++`, bubbling
position `i` left while `data.Less(j, j-1)`.  For such lengths the
gap-6 pairs are disjoint, so the shell pass is an independent
conditional swap of positions `i` and `i+6`. -/

/-- One bubbling step of Go's insertion sort, on the reversed processed
prefix (head = rightmost element): the new element `x` moves left past
`w` while `less x w`, and stops at the first `w` with `¬ less x w` —
which makes the sort stable. -/
def insertRev (less : α → α → Bool) (x : α) : List α → List α
  | [] => [x]
  | w :: ws => if less x w then w :: insertRev less x ws else x :: w :: ws

/-- Go's `insertionSort_func` (stable, left-to-right): fold the input
into a reversed processed prefix via `insertRev`, then reverse. -/
def goInsertionSort (less : α → α → Bool) (l : List α) : List α :=
  (l.foldl (fun acc x => insertRev less x acc) []).reverse

/-- The single gap-6 shell pass of `quickSort_func`: for positions
`i < length - 6`, conditionally swap elements `i` and `i+6` (the pairs
are disjoint for lengths up to 12, where this model is used). -/
def shellPass6 (less : α → α → Bool) (l : List α) : List α :=
  let front := l.take 6
  let back := l.drop 6
  let paired := List.zipWith (fun a b => if less b a then (b, a) else (a, b)) front back
  (paired.map Prod.fst ++ front.drop back.length) ++ (paired.map Prod.snd ++ back.drop 6)

/-- `sort.Slice` as executed on slices of at most 12 elements by the Go
toolchains contemporary with this source: no-op below 2 elements,
otherwise the gap-6 shell pass followed by the stable insertion sort. -/
def goSortSliceSmall (less : α → α → Bool) (l : List α) : List α :=
  if l.length ≤ 1 then l else goInsertionSort less (shellPass6 less l)

/-- The sort phase of `listCommand` (the `sort.Slice` call with the
`tunnelLess` comparator closure) as executed on result sets of at most
12 tunnels. -/
def listCommandSortGo (sortBy : String) (invert : Bool) (tunnels : List Tunnel) :
    List Tunnel :=
  goSortSliceSmall (tunnelLess sortBy invert) tunnels

/-- Seven tunnels whose names ascend and whose top two tie on name
(`a, b, c, d, e, x, x`). -/
def cex7Tunnels : List Tunnel :=
  [ { ID := "i0", Name := "a", CreatedAt := 0, DeletedAt := 0, Connections := [] },
    { ID := "i1", Name := "b", CreatedAt := 0, DeletedAt := 0, Connections := [] },
    { ID := "i2", Name := "c", CreatedAt := 0, DeletedAt := 0, Connections := [] },
    { ID := "i3", Name := "d", CreatedAt := 0, DeletedAt := 0, Connections := [] },
    { ID := "i4", Name := "e", CreatedAt := 0, DeletedAt := 0, Connections := [] },
    { ID := "t1", Name := "x", CreatedAt := 0, DeletedAt := 0, Connections := [] },
    { ID := "t2", Name := "x", CreatedAt := 0, DeletedAt := 0, Connections := [] } ]

/-- C1 (counterexample): on seven tunnels whose top two tie on the sort
key, the real `sort.Slice` path (gap-6 shell pass + stable insertion
sort) sorted ascending is the identity, but the inverted re-sort moves
the tied pair through the shell swap and the tie-bubbling of the
inverted comparator so that it ends in non-reversed order: the second
sort is not the exact reverse of the first ordering. -/
theorem listCommandSortGo_invert_not_reverse :
    listCommandSortGo "name" false cex7Tunnels = cex7Tunnels
    ∧ listCommandSortGo "name" true (listCommandSortGo "name" false cex7Tunnels)
        ≠ (listCommandSortGo "name" false cex7Tunnels).reverse := by
  refine ⟨by decide, by decide⟩

/-- C1 (witness): on a tie-free list the amended reversal property holds. -/
theorem listCommandSort_invert_reverses_w :
    (listCommandSort "name" true
        (listCommandSort "name" false [cexTunnelA, cexTunnelC]).1).1
      = ((listCommandSort "name" false [cexTunnelA, cexTunnelC]).1).reverse :=
  (listCommandSort_invert_reverses "name" [cexTunnelA, cexTunnelC] (by decide)).1

/-- C3 (counterexample): for an unsupported sort key and an empty tunnel
list the comparator closure is never invoked, so `invalidSortField`
stays false and no warning is surfaced, contrary to the claim that the
flag is set for every invalid key. -/
theorem listCommandSort_invalid_key_no_warning :
    tunnelSortKeyValid "bogus" = false
    ∧ (listCommandSort "bogus" false ([] : List Tunnel)).2 = false
    ∧ listSortWarning "bogus" (listCommandSort "bogus" false ([] : List Tunnel)).2 = none := by
  refine ⟨by decide, rfl, rfl⟩

/-- C3 (amended): for every sort key outside an engine's supported set,
that engine still completes the sort (it is a total function and returns
no error), using the default comparator (`name` for tunnels, the
connector's run timestamp for connectors); `invalidSortField` becomes
true exactly when the comparator closure is consulted, i.e. when the
list has at least two elements, and a true flag surfaces a warning that
names the invalid key and the engine's advertised option list. -/
theorem sortEngines_invalid_key_fallback (sortBy : String) (invert : Bool)
    (ts : List Tunnel) (cs : List Client) :
    (tunnelSortKeyValid sortBy = false →
      (listCommandSort sortBy invert ts).1 = sortLess (tunnelLess "name" invert) ts
      ∧ ((listCommandSort sortBy invert ts).2 = true ↔ 2 ≤ ts.length)
      ∧ listSortWarning sortBy true
          = some (sortBy ++ " is not a valid sort field. Valid sort fields are "
              ++ allSortByOptions ++ ". Defaulting to 'name'."))
    ∧ (clientSortKeyValid sortBy = false →
      (tunnelInfoSort sortBy invert cs).1 = sortLess (clientLess "createdAt" invert) cs
      ∧ ((tunnelInfoSort sortBy invert cs).2 = true ↔ 2 ≤ cs.length)
      ∧ infoSortWarning sortBy true
          = some (sortBy ++ " is not a valid sort field. Valid sort fields are "
              ++ connsSortByOptions ++ ". Defaulting to 'name'.")) := by
  constructor
  · intro h
    refine ⟨?_, ?_, rfl⟩
    · rw [listCommandSort_fst]
      refine sortLess_congr _ _ ?_ ts
      intro a b
      have hn : tunnelCmp "name" a b = strLt a.Name b.Name := by simp [tunnelCmp]
      simp only [tunnelLess, tunnelCmp_default sortBy h, hn]
    · rw [listCommandSort_snd, h]
      simp
  · intro h
    refine ⟨?_, ?_, rfl⟩
    · rw [tunnelInfoSort_fst]
      refine sortLess_congr _ _ ?_ cs
      intro a b
      have hn : clientCmp "createdAt" a b = decide (a.RunAt < b.RunAt) := by
        simp [clientCmp]
      simp only [clientLess, clientCmp_default sortBy h, hn]
    · rw [tunnelInfoSort_snd, h]
      simp

/-- A connector used in concrete instances. -/
def cexClientA : Client := { ID := "ca", RunAt := 5, Version := "1", Arch := "amd64", Connections := [] }

/-- A second connector with a later run timestamp. -/
def cexClientB : Client := { ID := "cb", RunAt := 9, Version := "2", Arch := "amd64", Connections := [] }

/-- C3 (witness): at the invalid key `"bogus"`, a two-element tunnel list
and a two-element connector list, both engines fall back to the default
comparator, set the flag, and produce the advertised warning. -/
theorem sortEngines_invalid_key_fallback_w :
    ((listCommandSort "bogus" false [cexTunnelC, cexTunnelA]).1
        = sortLess (tunnelLess "name" false) [cexTunnelC, cexTunnelA]
      ∧ ((listCommandSort "bogus" false [cexTunnelC, cexTunnelA]).2 = true
          ↔ 2 ≤ ([cexTunnelC, cexTunnelA] : List Tunnel).length)
      ∧ listSortWarning "bogus" true
          = some ("bogus" ++ " is not a valid sort field. Valid sort fields are "
              ++ allSortByOptions ++ ". Defaulting to 'name'."))
    ∧ ((tunnelInfoSort "bogus" false [cexClientB, cexClientA]).1
        = sortLess (clientLess "createdAt" false) [cexClientB, cexClientA]
      ∧ ((tunnelInfoSort "bogus" false [cexClientB, cexClientA]).2 = true
          ↔ 2 ≤ ([cexClientB, cexClientA] : List Client).length)
      ∧ infoSortWarning "bogus" true
          = some ("bogus" ++ " is not a valid sort field. Valid sort fields are "
              ++ connsSortByOptions ++ ". Defaulting to 'name'.")) :=
  ⟨(sortEngines_invalid_key_fallback "bogus" false [cexTunnelC, cexTunnelA]
      [cexClientB, cexClientA]).1 (by decide),
   (sortEngines_invalid_key_fallback "bogus" false [cexTunnelC, cexTunnelA]
      [cexClientB, cexClientA]).2 (by decide)⟩

/-- One `numConnsPerColo[connection.ColoName]++` step of `fmtConnections`:
a Go map update, modelled on an association list (key order is the order
of first insertion; it is irrelevant because the keys are sorted before
rendering, which is also why Go's randomized map iteration order does
not show in the output). -/
def bumpColo : List (String × Nat) → String → List (String × Nat)
  | [], colo => [(colo, 1)]
  | (k, v) :: rest, colo =>
    if k = colo then (k, v + 1) :: rest else (k, v) :: bumpColo rest colo

/-- The `numConnsPerColo` map built by the first loop of
`fmtConnections`: connections whose `IsPendingReconnect` is set are
skipped unless `showRecentlyDisconnected` is true. -/
def numConnsPerColo (connections : List Connection) (showRecentlyDisconnected : Bool) :
    List (String × Nat) :=
  connections.foldl
    (fun m c =>
      if !c.IsPendingReconnect || showRecentlyDisconnected then bumpColo m c.ColoName else m)
    []

/-- Go map read with zero default: `numConnsPerColo[coloName]`. -/
def lookupColo (m : List (String × Nat)) (colo : String) : Nat :=
  (m.lookup colo).getD 0

/-- `fmtConnections` (lines 327-350): count connections per colo, sort
the colo names, and render `"<count>x<colo>"` entries joined by
`", "`. -/
def fmtConnections (connections : List Connection) (showRecentlyDisconnected : Bool) :
    String :=
  String.intercalate ", "
    ((sortLess strLt
        ((numConnsPerColo connections showRecentlyDisconnected).map Prod.fst)).map
      fun coloName =>
        toString (lookupColo (numConnsPerColo connections showRecentlyDisconnected) coloName)
          ++ "x" ++ coloName)

/-- The connections that are counted: non-pending ones, or all of them
when `showRecentlyDisconnected` is set (spec §4.5 wording). -/
def eligibleConnections (connections : List Connection) (showRD : Bool) : List Connection :=
  connections.filter fun c => !c.IsPendingReconnect || showRD

/-- Spec-side rendering of `fmtConnections` (§4.5): group the eligible
connections by colo name, list each distinct colo once in lexicographic
order, and render its eligible-connection count. -/
def fmtConnectionsSpec (connections : List Connection) (showRD : Bool) : String :=
  String.intercalate ", "
    ((sortLess strLt ((eligibleConnections connections showRD).map Connection.ColoName).dedup).map
      fun coloName =>
        toString (((eligibleConnections connections showRD).map Connection.ColoName).count coloName)
          ++ "x" ++ coloName)

theorem numConnsPerColo_eq_fold (conns : List Connection) (rd : Bool) :
    numConnsPerColo conns rd
      = ((eligibleConnections conns rd).map Connection.ColoName).foldl bumpColo [] := by
  suffices h : ∀ m : List (String × Nat),
      conns.foldl
        (fun m c => if !c.IsPendingReconnect || rd then bumpColo m c.ColoName else m) m
      = ((eligibleConnections conns rd).map Connection.ColoName).foldl bumpColo m from
    h []
  induction conns with
  | nil => intro m; rfl
  | cons c cs ih =>
    intro m
    by_cases hc : (!c.IsPendingReconnect || rd) = true
    · simp only [eligibleConnections, List.foldl_cons, List.filter_cons, hc, if_pos,
        List.map_cons, ih]
    · rw [Bool.not_eq_true] at hc
      simp only [eligibleConnections, List.foldl_cons, List.filter_cons, hc] at ih ⊢
      simp only [hc, Bool.false_eq_true, if_false, ih]
      rfl

theorem bumpColo_lookup (m : List (String × Nat)) (s t : String) :
    ((bumpColo m s).lookup t).getD 0
      = (m.lookup t).getD 0 + (if t = s then 1 else 0) := by
  induction m with
  | nil =>
    by_cases h : t = s
    · subst h; simp [bumpColo, List.lookup]
    · have hb : (t == s) = false := beq_eq_false_iff_ne.mpr h
      simp [bumpColo, List.lookup, hb, h]
  | cons kv rest ih =>
    obtain ⟨k, v⟩ := kv
    simp only [bumpColo]
    by_cases hks : k = s
    · subst hks
      rw [if_pos rfl]
      by_cases htk : t = k
      · subst htk; simp [List.lookup]
      · have hb : (t == k) = false := beq_eq_false_iff_ne.mpr htk
        simp [List.lookup, hb, htk]
    · rw [if_neg hks]
      by_cases htk : t = k
      · subst htk
        have hts : ¬ t = s := fun h => hks h
        simp [List.lookup, hts]
      · have hb : (t == k) = false := beq_eq_false_iff_ne.mpr htk
        simp [List.lookup, hb, htk, ih]

theorem foldl_bumpColo_lookup (xs : List String) :
    ∀ (m : List (String × Nat)) (t : String),
      ((xs.foldl bumpColo m).lookup t).getD 0 = (m.lookup t).getD 0 + xs.count t := by
  induction xs with
  | nil => intro m t; simp
  | cons x xs ih =>
    intro m t
    rw [List.foldl_cons, ih, bumpColo_lookup]
    by_cases h : t = x
    · subst h; simp [List.count_cons]; omega
    · simp [List.count_cons, h, Ne.symm h]

theorem bumpColo_keys (m : List (String × Nat)) (s : String) :
    (bumpColo m s).map Prod.fst
      = if s ∈ m.map Prod.fst then m.map Prod.fst else m.map Prod.fst ++ [s] := by
  induction m with
  | nil => simp [bumpColo]
  | cons kv rest ih =>
    obtain ⟨k, v⟩ := kv
    simp only [bumpColo]
    by_cases hks : k = s
    · subst hks
      simp
    · rw [if_neg hks]
      have hsk : ¬ s = k := fun h => hks h.symm
      by_cases hm : s ∈ rest.map Prod.fst
      · simp [ih, hm, hsk]
      · simp [ih, hm, hsk]

theorem foldl_bumpColo_keys (xs : List String) :
    ∀ (m : List (String × Nat)), (m.map Prod.fst).Nodup →
      ((xs.foldl bumpColo m).map Prod.fst).Nodup
      ∧ ∀ t, t ∈ (xs.foldl bumpColo m).map Prod.fst ↔ (t ∈ m.map Prod.fst ∨ t ∈ xs) := by
  induction xs with
  | nil =>
    intro m hm
    simpa using hm
  | cons x xs ih =>
    intro m hm
    rw [List.foldl_cons]
    have hb := bumpColo_keys m x
    by_cases hx : x ∈ m.map Prod.fst
    · rw [if_pos hx] at hb
      have h2 := ih (bumpColo m x) (hb ▸ hm)
      refine ⟨h2.1, ?_⟩
      intro t
      rw [(h2.2 t), hb]
      simp only [List.mem_cons]
      constructor
      · rintro (h | h)
        · exact Or.inl h
        · exact Or.inr (Or.inr h)
      · rintro (h | h | h)
        · exact Or.inl h
        · exact Or.inl (h ▸ hx)
        · exact Or.inr h
    · rw [if_neg hx] at hb
      have hnd : ((bumpColo m x).map Prod.fst).Nodup := by
        rw [hb]
        simp [List.nodup_append, hm, hx]
      have h2 := ih (bumpColo m x) hnd
      refine ⟨h2.1, ?_⟩
      intro t
      rw [(h2.2 t), hb]
      simp only [List.mem_append, List.mem_singleton, List.mem_cons]
      tauto

theorem fmtConnections_eq_spec (conns : List Connection) (rd : Bool) :
    fmtConnections conns rd = fmtConnectionsSpec conns rd := by
  have hkeys := foldl_bumpColo_keys
    ((eligibleConnections conns rd).map Connection.ColoName) [] (by simp)
  have hcount : ∀ colo,
      lookupColo (numConnsPerColo conns rd) colo
        = ((eligibleConnections conns rd).map Connection.ColoName).count colo := by
    intro colo
    unfold lookupColo
    rw [numConnsPerColo_eq_fold]
    simpa using
      foldl_bumpColo_lookup ((eligibleConnections conns rd).map Connection.ColoName) [] colo
  have hperm :
      ((((eligibleConnections conns rd).map Connection.ColoName).foldl bumpColo []).map
        Prod.fst).Perm
        ((eligibleConnections conns rd).map Connection.ColoName).dedup := by
    rw [List.perm_ext_iff_of_nodup hkeys.1 (List.nodup_dedup _)]
    intro a
    rw [hkeys.2 a, List.mem_dedup]
    simp
  have hsort :
      sortLess strLt ((numConnsPerColo conns rd).map Prod.fst)
        = sortLess strLt ((eligibleConnections conns rd).map Connection.ColoName).dedup := by
    rw [numConnsPerColo_eq_fold]
    exact sortLess_eq_of_perm strLt_asymm strLt_trans strLt_total hperm hkeys.1
  unfold fmtConnections fmtConnectionsSpec
  rw [hsort]
  congr 1
  apply List.map_congr_left
  intro colo _
  rw [hcount]

/-- An active connection at colo `LAX`. -/
def cexConnLAX1 : Connection := { ColoName := "LAX", OriginIP := "", IsPendingReconnect := false }

/-- A pending-reconnect connection at colo `LAX`. -/
def cexConnLAX2 : Connection := { ColoName := "LAX", OriginIP := "", IsPendingReconnect := true }

/-- An active connection at colo `JFK`. -/
def cexConnJFK : Connection := { ColoName := "JFK", OriginIP := "", IsPendingReconnect := false }

/-- C6: `fmtConnections` groups connections by `ColoName`, counts only
non-pending connections unless `showRecentlyDisconnected` is set, and
renders the counts as a comma-joined `"<count>x<colo>"` sequence sorted
lexicographically by colo name; on the given example it yields
`"1xJFK, 1xLAX"` resp. `"1xJFK, 2xLAX"`. -/
theorem fmtConnections_spec :
    (∀ (conns : List Connection) (rd : Bool),
      fmtConnections conns rd = fmtConnectionsSpec conns rd)
    ∧ fmtConnections [cexConnLAX1, cexConnLAX2, cexConnJFK] false = "1xJFK, 1xLAX"
    ∧ fmtConnections [cexConnLAX1, cexConnLAX2, cexConnJFK] true = "1xJFK, 2xLAX" :=
  ⟨fmtConnections_eq_spec, by decide, by decide⟩

/-- Head character class of `nameRegex` = `^[_a-zA-Z0-9]...`. -/
def isNameHeadChar (c : Char) : Bool :=
  c == '_' || (decide ('A' ≤ c) && decide (c ≤ 'Z'))
    || (decide ('a' ≤ c) && decide (c ≤ 'z'))
    || (decide ('0' ≤ c) && decide (c ≤ '9'))

/-- Tail character class `[-_.a-zA-Z0-9]` of both regexes. -/
def isNameTailChar (c : Char) : Bool :=
  isNameHeadChar c || c == '-' || c == '.'

/-- `nameRegex.MatchString s` for
`nameRegex = ^[_a-zA-Z0-9][-_.a-zA-Z0-9]*$` (the pattern is anchored on
both sides, so it is a full match; Go's `$` matches only at end of text
without multiline mode). -/
def nameRegexMatch (s : String) : Bool :=
  match s.data with
  | [] => false
  | c :: cs => isNameHeadChar c && cs.all isNameTailChar

/-- `hostNameRegex.MatchString s` for
`hostNameRegex = ^[*_a-zA-Z0-9][-_.a-zA-Z0-9]*$`. -/
def hostNameRegexMatch (s : String) : Bool :=
  match s.data with
  | [] => false
  | c :: cs => (isNameHeadChar c || c == '*') && cs.all isNameTailChar

/-- `validateName` (lines 730-735). -/
def validateName (s : String) (allowWildcardSubdomain : Bool) : Bool :=
  if allowWildcardSubdomain then hostNameRegexMatch s else nameRegexMatch s

/-- Spec-side head class `[_A-Za-z0-9]` as a proposition. -/
def NameHeadCharP (c : Char) : Prop :=
  c = '_' ∨ ('A' ≤ c ∧ c ≤ 'Z') ∨ ('a' ≤ c ∧ c ≤ 'z') ∨ ('0' ≤ c ∧ c ≤ '9')

/-- Spec-side tail class `[-_.A-Za-z0-9]` as a proposition. -/
def NameTailCharP (c : Char) : Prop :=
  NameHeadCharP c ∨ c = '-' ∨ c = '.'

/-- Spec-side reading of `^[_A-Za-z0-9][-_.A-Za-z0-9]*$`. -/
def MatchesNameRegex (s : String) : Prop :=
  ∃ c cs, s.data = c :: cs ∧ NameHeadCharP c ∧ ∀ x ∈ cs, NameTailCharP x

/-- Spec-side reading of the wildcard variant
`^[*_A-Za-z0-9][-_.A-Za-z0-9]*$`. -/
def MatchesHostNameRegex (s : String) : Prop :=
  ∃ c cs, s.data = c :: cs ∧ (NameHeadCharP c ∨ c = '*') ∧ ∀ x ∈ cs, NameTailCharP x

theorem isNameHeadChar_iff (c : Char) : isNameHeadChar c = true ↔ NameHeadCharP c := by
  simp [isNameHeadChar, NameHeadCharP]
  tauto

theorem isNameTailChar_iff (c : Char) : isNameTailChar c = true ↔ NameTailCharP c := by
  simp [isNameTailChar, NameTailCharP, NameHeadCharP, isNameHeadChar]
  tauto

theorem nameRegexMatch_iff (s : String) :
    nameRegexMatch s = true ↔ MatchesNameRegex s := by
  unfold nameRegexMatch MatchesNameRegex
  cases h : s.data with
  | nil => simp
  | cons c cs =>
    simp only [Bool.and_eq_true, List.all_eq_true]
    constructor
    · rintro ⟨h1, h2⟩
      exact ⟨c, cs, rfl, (isNameHeadChar_iff c).1 h1,
        fun x hx => (isNameTailChar_iff x).1 (h2 x hx)⟩
    · rintro ⟨c', cs', heq, hh, ht⟩
      injection heq with e1 e2
      subst e1
      subst e2
      exact ⟨(isNameHeadChar_iff c).2 hh,
        fun x hx => (isNameTailChar_iff x).2 (ht x hx)⟩

theorem hostNameRegexMatch_iff (s : String) :
    hostNameRegexMatch s = true ↔ MatchesHostNameRegex s := by
  unfold hostNameRegexMatch MatchesHostNameRegex
  cases h : s.data with
  | nil => simp
  | cons c cs =>
    simp only [Bool.and_eq_true, Bool.or_eq_true, List.all_eq_true, beq_iff_eq]
    constructor
    · rintro ⟨h1, h2⟩
      refine ⟨c, cs, rfl, ?_, fun x hx => (isNameTailChar_iff x).1 (h2 x hx)⟩
      rcases h1 with h1 | h1
      · exact Or.inl ((isNameHeadChar_iff c).1 h1)
      · exact Or.inr h1
    · rintro ⟨c', cs', heq, hh, ht⟩
      injection heq with e1 e2
      subst e1
      subst e2
      refine ⟨?_, fun x hx => (isNameTailChar_iff x).2 (ht x hx)⟩
      rcases hh with hh | hh
      · exact Or.inl ((isNameHeadChar_iff c).2 hh)
      · exact Or.inr hh

/-- C5: `validateName(s, false)` accepts exactly the strings matching
`^[_A-Za-z0-9][-_.A-Za-z0-9]*$`, and `validateName(s, true)` exactly
those matching the variant that additionally permits a leading `*`;
`"my_tunnel-1"` is accepted without wildcard, `"-leading-dash"` is
rejected. -/
theorem validateName_spec :
    (∀ s : String, validateName s false = true ↔ MatchesNameRegex s)
    ∧ (∀ s : String, validateName s true = true ↔ MatchesHostNameRegex s)
    ∧ validateName "my_tunnel-1" false = true
    ∧ validateName "-leading-dash" false = false :=
  ⟨fun s => nameRegexMatch_iff s, fun s => hostNameRegexMatch_iff s, by decide, by decide⟩

/-- Split a character list into the DNS labels delimited by `'.'`. -/
def splitLabels : List Char → List (List Char)
  | [] => [[]]
  | c :: cs =>
    match splitLabels cs with
    | [] => [[]]
    | l :: ls => if c = '.' then [] :: l :: ls else (c :: l) :: ls

/-- Modelled from the spec: the IDNA to-ASCII transform of
`golang.org/x/net/idna` with `ValidateLabels(true)` and
`VerifyDNSLength(true)` (the library is an external collaborator, §4.1).
Only the fragment exercised here is modelled: a string passes when it
consists of printable ASCII (control characters such as NUL are
disallowed code points and also invalid in punycode), its total length
is at most 253, and every dot-separated label has 1 to 63 characters;
such input is already ASCII and is returned unchanged.  On failure the
transform rejects. -/
def idnaToASCII (s : String) : Option String :=
  if s.data.all (fun c => decide (0x21 ≤ c.toNat) && decide (c.toNat ≤ 0x7e))
      && decide (s.data.length ≤ 253)
      && (splitLabels s.data).all (fun l => decide (1 ≤ l.length) && decide (l.length ≤ 63))
  then some s
  else none

/-- `validateHostname` (lines 737-745): IDNA-normalize, then re-apply
`validateName` to the normalized form. -/
def validateHostname (s : String) (allowWildcardSubdomain : Bool) : Bool :=
  match idnaToASCII s with
  | none => false
  | some puny => validateName puny allowWildcardSubdomain

/-- C4: `validateHostname(s, w)` succeeds exactly when the IDNA
to-ASCII transform succeeds on `s` and `validateName` accepts the
normalized output with the same wildcard flag; in particular
`"*.example.com"` passes with wildcard allowed, fails with wildcard
disallowed, and `"xn--something-invalid\x00"` fails. -/
theorem validateHostname_spec :
    (∀ (s : String) (w : Bool), validateHostname s w = true
      ↔ ∃ puny, idnaToASCII s = some puny ∧ validateName puny w = true)
    ∧ validateHostname "*.example.com" true = true
    ∧ validateHostname "*.example.com" false = false
    ∧ validateHostname "xn--something-invalid\x00" true = false := by
  refine ⟨?_, by decide, by decide, by decide⟩
  intro s w
  unfold validateHostname
  cases h : idnaToASCII s with
  | none => simp
  | some p => simp

theorem eq_true_of_not_bnot {b : Bool} (h : ¬((!b) = true)) : b = true := by
  cases b
  · exact absurd rfl h
  · rfl

theorem not_bnot_of_eq_true {b : Bool} (h : b = true) : ¬((!b) = true) := by
  rw [h]
  decide

theorem bnot_eq_true_of_eq_false {b : Bool} (h : b = false) : (!b) = true := by
  rw [h]
  rfl

/-- Error classes of the route builders: `cliutil.UsageError` versus the
`errors.Errorf` validation errors. -/
inductive RouteError where
  | usage (msg : String)
  | invalidArg (msg : String)
deriving DecidableEq

/-- `tunnelstore.Route`, a closed variant type: `NewDNSRoute(hostname,
overwriteExisting)` or `NewLBRoute(lbName, lbPool)` (modelled from the
spec §3, constructed exactly as in `subcommands.go`). -/
inductive Route where
  | dns (userHostname : String) (overwriteExisting : Bool)
  | lb (lbName : String) (lbPool : String)
deriving DecidableEq

/-- `dnsRouteFromArg` (lines 684-699); `c.NArg()` is the argument count
and `c.Args().Get(i)` yields `""` out of range. -/
def dnsRouteFromArg (args : List String) (overwriteExisting : Bool) :
    Except RouteError Route :=
  if args.length ≠ 3 then
    .error (.usage ("Expected 3 arguments, got " ++ toString args.length))
  else if args.getD 2 "" = "" then
    .error (.usage "The third argument should be the hostname")
  else if !validateHostname (args.getD 2 "") true then
    .error (.invalidArg (args.getD 2 "" ++ " is not a valid hostname"))
  else
    .ok (.dns (args.getD 2 "") overwriteExisting)

/-- `lbRouteFromArg` (lines 701-725). -/
def lbRouteFromArg (args : List String) : Except RouteError Route :=
  if args.length ≠ 4 then
    .error (.usage ("Expected 4 arguments, got " ++ toString args.length))
  else if args.getD 2 "" = "" then
    .error (.usage "The third argument should be the load balancer name")
  else if !validateHostname (args.getD 2 "") true then
    .error (.invalidArg (args.getD 2 "" ++ " is not a valid load balancer name"))
  else if args.getD 3 "" = "" then
    .error (.usage "The fourth argument should be the pool name")
  else if !validateName (args.getD 3 "") false then
    .error (.invalidArg (args.getD 3 "" ++ " is not a valid pool name"))
  else
    .ok (.lb (args.getD 2 "") (args.getD 3 ""))

/-- C7: `dnsRouteFromArg` returns a DNS route exactly when given exactly
3 positional arguments whose 3rd is non-empty and passes
`validateHostname` with wildcard allowed; any other argument count
fails with the UsageError `"Expected 3 arguments, got N"` (e.g. `N = 2`),
and a present but invalid hostname fails with an error naming it. -/
theorem dnsRouteFromArg_spec :
    (∀ (args : List String) (ow : Bool),
      (∃ r, dnsRouteFromArg args ow = .ok r)
        ↔ (args.length = 3 ∧ args.getD 2 "" ≠ ""
            ∧ validateHostname (args.getD 2 "") true = true))
    ∧ (∀ (args : List String) (ow : Bool), args.length = 3 → args.getD 2 "" ≠ "" →
        validateHostname (args.getD 2 "") true = true →
        dnsRouteFromArg args ow = .ok (.dns (args.getD 2 "") ow))
    ∧ (∀ (args : List String) (ow : Bool), args.length ≠ 3 →
        dnsRouteFromArg args ow
          = .error (.usage ("Expected 3 arguments, got " ++ toString args.length)))
    ∧ dnsRouteFromArg ["dns", "mytunnel"] false
        = .error (.usage "Expected 3 arguments, got 2")
    ∧ (∀ (args : List String) (ow : Bool), args.length = 3 → args.getD 2 "" ≠ "" →
        validateHostname (args.getD 2 "") true = false →
        dnsRouteFromArg args ow
          = .error (.invalidArg (args.getD 2 "" ++ " is not a valid hostname"))) := by
  refine ⟨?_, ?_, ?_, rfl, ?_⟩
  · intro args ow
    constructor
    · rintro ⟨r, hr⟩
      unfold dnsRouteFromArg at hr
      split_ifs at hr with h1 h2 h3
      exact ⟨not_not.mp h1, h2, eq_true_of_not_bnot h3⟩
    · rintro ⟨h1, h2, h3⟩
      unfold dnsRouteFromArg
      rw [if_neg (fun h => h h1), if_neg h2, if_neg (not_bnot_of_eq_true h3)]
      exact ⟨.dns (args.getD 2 "") ow, rfl⟩
  · intro args ow h1 h2 h3
    unfold dnsRouteFromArg
    rw [if_neg (fun h => h h1), if_neg h2, if_neg (not_bnot_of_eq_true h3)]
  · intro args ow h1
    unfold dnsRouteFromArg
    rw [if_pos h1]
  · intro args ow h1 h2 h3
    unfold dnsRouteFromArg
    rw [if_neg (fun h => h h1), if_neg h2, if_pos (bnot_eq_true_of_eq_false h3)]

/-- C7 (witness): a present but invalid hostname is reported by name. -/
theorem dnsRouteFromArg_spec_w :
    dnsRouteFromArg ["dns", "mytunnel", "host!"] true
      = .error (.invalidArg "host! is not a valid hostname") := by
  have h := dnsRouteFromArg_spec.2.2.2.2 ["dns", "mytunnel", "host!"] true
    (by decide) (by decide) (by decide)
  simpa using h

/-- C8: `lbRouteFromArg` returns an LB route exactly when given exactly
4 positional arguments whose 3rd (load-balancer hostname) is non-empty
and passes `validateHostname` with wildcard allowed and whose 4th (pool
name) is non-empty and passes `validateName` with wildcard disallowed;
otherwise it fails with an error identifying the offending argument or
the wrong argument count. -/
theorem lbRouteFromArg_spec :
    (∀ args : List String,
      (∃ r, lbRouteFromArg args = .ok r)
        ↔ (args.length = 4 ∧ args.getD 2 "" ≠ ""
            ∧ validateHostname (args.getD 2 "") true = true
            ∧ args.getD 3 "" ≠ "" ∧ validateName (args.getD 3 "") false = true))
    ∧ (∀ args : List String, args.length = 4 → args.getD 2 "" ≠ "" →
        validateHostname (args.getD 2 "") true = true → args.getD 3 "" ≠ "" →
        validateName (args.getD 3 "") false = true →
        lbRouteFromArg args = .ok (.lb (args.getD 2 "") (args.getD 3 "")))
    ∧ (∀ args : List String, args.length ≠ 4 →
        lbRouteFromArg args
          = .error (.usage ("Expected 4 arguments, got " ++ toString args.length)))
    ∧ (∀ args : List String, args.length = 4 → args.getD 2 "" ≠ "" →
        validateHostname (args.getD 2 "") true = false →
        lbRouteFromArg args
          = .error (.invalidArg (args.getD 2 "" ++ " is not a valid load balancer name")))
    ∧ (∀ args : List String, args.length = 4 → args.getD 2 "" ≠ "" →
        validateHostname (args.getD 2 "") true = true → args.getD 3 "" ≠ "" →
        validateName (args.getD 3 "") false = false →
        lbRouteFromArg args
          = .error (.invalidArg (args.getD 3 "" ++ " is not a valid pool name"))) := by
  refine ⟨?_, ?_, ?_, ?_, ?_⟩
  · intro args
    constructor
    · rintro ⟨r, hr⟩
      unfold lbRouteFromArg at hr
      split_ifs at hr with h1 h2 h3 h4 h5
      exact ⟨not_not.mp h1, h2, eq_true_of_not_bnot h3, h4, eq_true_of_not_bnot h5⟩
    · rintro ⟨h1, h2, h3, h4, h5⟩
      unfold lbRouteFromArg
      rw [if_neg (fun h => h h1), if_neg h2, if_neg (not_bnot_of_eq_true h3), if_neg h4,
        if_neg (not_bnot_of_eq_true h5)]
      exact ⟨.lb (args.getD 2 "") (args.getD 3 ""), rfl⟩
  · intro args h1 h2 h3 h4 h5
    unfold lbRouteFromArg
    rw [if_neg (fun h => h h1), if_neg h2, if_neg (not_bnot_of_eq_true h3), if_neg h4,
      if_neg (not_bnot_of_eq_true h5)]
  · intro args h1
    unfold lbRouteFromArg
    rw [if_pos h1]
  · intro args h1 h2 h3
    unfold lbRouteFromArg
    rw [if_neg (fun h => h h1), if_neg h2, if_pos (bnot_eq_true_of_eq_false h3)]
  · intro args h1 h2 h3 h4 h5
    unfold lbRouteFromArg
    rw [if_neg (fun h => h h1), if_neg h2, if_neg (not_bnot_of_eq_true h3), if_neg h4,
      if_pos (bnot_eq_true_of_eq_false h5)]

/-- C8 (witness): a well-formed call succeeds and an invalid pool name
is reported by name. -/
theorem lbRouteFromArg_spec_w :
    lbRouteFromArg ["lb", "mytunnel", "lb.example.com", "pool-1"]
      = .ok (.lb "lb.example.com" "pool-1")
    ∧ lbRouteFromArg ["lb", "mytunnel", "lb.example.com", "pool/bad"]
      = .error (.invalidArg "pool/bad is not a valid pool name") := by
  constructor
  · have h := lbRouteFromArg_spec.2.1 ["lb", "mytunnel", "lb.example.com", "pool-1"]
      (by decide) (by decide) (by decide) (by decide) (by decide)
    simpa using h
  · have h := lbRouteFromArg_spec.2.2.2.2 ["lb", "mytunnel", "lb.example.com", "pool/bad"]
      (by decide) (by decide) (by decide) (by decide) (by decide)
    simpa using h

/-- Modelled from the spec: `tunnelstore.Filter`, an accumulator of
optional predicates combined conjunctively by the listing collaborator
(§4.2); `excludeDeleted` corresponds to `NoDeleted()`. -/
structure TunnelFilter where
  excludeDeleted : Bool
  name : Option String
  existedAt : Option Int
  tunnelID : Option String
deriving DecidableEq

/-- Modelled from the spec: `tunnelstore.NewFilter()`. -/
def TunnelFilter.new : TunnelFilter :=
  { excludeDeleted := false, name := none, existedAt := none, tunnelID := none }

/-- Modelled from the spec: `Filter.NoDeleted()`. -/
def TunnelFilter.noDeleted (f : TunnelFilter) : TunnelFilter :=
  { f with excludeDeleted := true }

/-- Modelled from the spec: `Filter.ByName(name)`. -/
def TunnelFilter.byName (f : TunnelFilter) (n : String) : TunnelFilter :=
  { f with name := some n }

/-- Modelled from the spec: `Filter.ByExistedAt(t)`. -/
def TunnelFilter.byExistedAt (f : TunnelFilter) (t : Int) : TunnelFilter :=
  { f with existedAt := some t }

/-- Modelled from the spec: `Filter.ByTunnelID(id)`. -/
def TunnelFilter.byTunnelID (f : TunnelFilter) (tid : String) : TunnelFilter :=
  { f with tunnelID := some tid }

/-- The already-parsed flag values of one `list` invocation: the list
command registers `--show-deleted`, `--name`, `--when` (its only
timestamp flag, `listExistedAtFlag`), and `--id`. -/
structure ListFlags where
  showDeleted : Bool
  name : String
  whenTs : Option Int
  id : String
deriving DecidableEq

/-- `c.Timestamp(flagName)` of urfave/cli: returns the value of the
named registered timestamp flag; the only timestamp flag registered on
the list command is `"when"`, so any other name yields nil. -/
def ListFlags.timestampFlag (f : ListFlags) (flagName : String) : Option Int :=
  if flagName = "when" then f.whenTs else none

/-- `c.String(flagName)` for the list command's string flags. -/
def ListFlags.stringFlag (f : ListFlags) (flagName : String) : String :=
  if flagName = "name" then f.name else if flagName = "id" then f.id else ""

/-- `c.Bool(flagName)` for the list command's boolean flags. -/
def ListFlags.boolFlag (f : ListFlags) (flagName : String) : Bool :=
  if flagName = "show-deleted" then f.showDeleted else false

/-- The filter-building phase of `listCommand` (lines 239-255), ported
verbatim: note that it reads `c.Timestamp("time")` even though the
registered flag is named `"when"`. -/
def listCommandFilter (parseUUID : String → Option String) (c : ListFlags) :
    Except String TunnelFilter :=
  let f0 := TunnelFilter.new
  let f1 := if !(c.boolFlag "show-deleted") then f0.noDeleted else f0
  let f2 := if c.stringFlag "name" ≠ "" then f1.byName (c.stringFlag "name") else f1
  let f3 :=
    match c.timestampFlag "time" with
    | some t => f2.byExistedAt t
    | none => f2
  if c.stringFlag "id" ≠ "" then
    match parseUUID (c.stringFlag "id") with
    | none => .error (c.stringFlag "id" ++ " is not a valid tunnel ID")
    | some tid => .ok (f3.byTunnelID tid)
  else .ok f3

/-- C2 (code bug): with `--when` set to `2021-01-01T00:00:00Z`
(Unix 1609459200) the flag lookup `c.Timestamp("time")` misses the
registered flag name `"when"`, so the built filter carries no
existed-at predicate — `existedAt` is `none` although the claim
requires it to carry the given timestamp. -/
theorem listCommandFilter_when_ignored :
    ListFlags.timestampFlag
        { showDeleted := false, name := "", whenTs := some 1609459200, id := "" } "when"
      = some 1609459200
    ∧ listCommandFilter (fun _ => none)
        { showDeleted := false, name := "", whenTs := some 1609459200, id := "" }
      = .ok { excludeDeleted := true, name := none, existedAt := none, tunnelID := none } :=
  ⟨rfl, rfl⟩

/-- Modelled from the spec: `connection.Credentials`, the tunnel secret
plus identity fields (§3). -/
structure Credentials where
  AccountTag : String
  TunnelSecret : String
  TunnelID : String
  TunnelName : String
deriving DecidableEq

/-- Modelled from the spec: `json.Marshal` of `connection.Credentials`
(a concrete JSON object rendering; marshalling this struct never
fails). -/
def marshalCredentials (c : Credentials) : String :=
  "\x7b\"AccountTag\":\"" ++ c.AccountTag ++ "\",\"TunnelSecret\":\"" ++ c.TunnelSecret
    ++ "\",\"TunnelID\":\"" ++ c.TunnelID ++ "\",\"TunnelName\":\"" ++ c.TunnelName
    ++ "\"\x7d"

/-- A file in the local file-system model: its contents together with
the permission bits it was created with. -/
structure FileEntry where
  content : String
  mode : Nat
deriving DecidableEq

/-- Local file-system model: a map from paths to files. -/
structure FS where
  entries : List (String × FileEntry)
deriving DecidableEq

/-- `os.Stat` existence check over the model. -/
def FS.stat (fs : FS) (path : String) : Option FileEntry :=
  fs.entries.lookup path

/-- `writeTunnelCredentials` (lines 195-207): refuse an existing path;
otherwise marshal the credentials to JSON and write them with the mode
constant `400` that the code passes to `ioutil.WriteFile` (a Go integer
literal without a leading `0` is decimal, so this is decimal 400 =
octal 0620, not octal 0400). -/
def writeTunnelCredentials (fs : FS) (filePath : String) (credentials : Credentials) :
    Except String Unit × FS :=
  match fs.stat filePath with
  | some _ => (.error (filePath ++ " already exists"), fs)
  | none =>
    let body := marshalCredentials credentials
    (.ok (), ⟨(filePath, { content := body, mode := 400 }) :: fs.entries⟩)

/-- C9: writing credentials to an existing path fails with an
AlreadyExists-class error whose message names the path, and returns the
file system unchanged — in particular the existing file's contents are
untouched and no write is attempted. -/
theorem writeTunnelCredentials_already_exists (fs : FS) (p : String) (cr : Credentials)
    (h : (fs.stat p).isSome = true) :
    writeTunnelCredentials fs p cr = (.error (p ++ " already exists"), fs) := by
  cases hs : fs.stat p with
  | none => rw [hs] at h; exact absurd h (by simp)
  | some e => simp [writeTunnelCredentials, hs]

/-- Concrete credentials for witnesses. -/
def cexCreds : Credentials :=
  { AccountTag := "acct", TunnelSecret := "sec", TunnelID := "tid", TunnelName := "tn" }

/-- A file system that already holds a credentials file at `t.json`. -/
def cexFS : FS := ⟨[("t.json", { content := "old", mode := 256 })]⟩

/-- C9 (witness): overwriting `t.json` is refused and the file system is
returned unchanged. -/
theorem writeTunnelCredentials_already_exists_w :
    writeTunnelCredentials cexFS "t.json" cexCreds
      = (.error ("t.json" ++ " already exists"), cexFS) :=
  writeTunnelCredentials_already_exists cexFS "t.json" cexCreds (by decide)

/-- C10 (code bug): on a fresh path the write succeeds and stores the
JSON serialization of the credentials, but with mode 400 decimal
(= octal 0620, group-writable) — not the owner-read-only octal 0400
(= 256) that the claim states. -/
theorem writeTunnelCredentials_fresh_mode_not_0400 :
    (writeTunnelCredentials ⟨[]⟩ "t.json" cexCreds).1 = .ok ()
    ∧ ((writeTunnelCredentials ⟨[]⟩ "t.json" cexCreds).2.stat "t.json")
        = some { content := marshalCredentials cexCreds, mode := 400 }
    ∧ (400 : Nat) ≠ 0o400 :=
  ⟨rfl, rfl, by decide⟩
